import Mathlib

set_option maxRecDepth 40000

/-!
Shallow embedding of `browse.c` (an interactive browser for `grep -n`-style
match streams) and a verification of its parser, match store and exit-path
behaviour.

The embedding follows the C source closely:

* `CBuf` models one bounded character buffer together with the parser's
  cursor into it (`off` = how far the write pointer has advanced from the
  buffer base, `avail` = the C variable `buffer_avail`).  `mem` is the
  declared array itself (a list of exactly `cap` bytes; writes at indices
  `≥ cap` leave `mem` unchanged, because they land outside the declared
  array).  Every single byte store the code performs is also recorded in
  the `writes` log as a pair (index, value), so that out-of-bounds writes
  are observable.
* `procChar` is the body of the `for` loop of `parse_next_match`,
  `runParse` is the loop itself, and `parse_next_match` adds the
  end-of-loop result computation (lines 141-196 of browse.c).
* `build_menu_loopF` / `build_menu_loop` model the parse loop of
  `build_menu` (lines 252-256): on a malformed record the same `struct
  match` slot is reused (its memory is threaded through), on success the
  loop moves to a fresh slot whose uninitialized memory comes from the
  `slotJunk` environment; the uninitialized stack buffer `line_num_buf`
  of each call comes from the `lnJunk` environment.
* `resize_matchv` / `init_matchv` model the match store of lines 106-120,
  and `zero_match_exit` the zero-matches exit path of lines 257-271.
-/

/- Constants from browse.c. -/
def MATCH_PATH_LEN : Nat := 256
def MATCH_DESCRIPTION_LEN : Nat := 256
def LINE_NUM_BUF_SIZE : Nat := 32
def SEPARATOR : Nat := 58
def TAB_REPL : Nat := 32
def TAB_STOP : Nat := 4
def NONPRINT_REPL : Nat := 46
def MATCH_CHUNK_LEN : Nat := 32
def NEWLINE : Nat := 10

/-- `isprint` of the C locale: exactly the bytes 0x20 .. 0x7e are printable. -/
def isprint (c : Nat) : Bool := 32 ≤ c && c ≤ 126

/-- `isspace` of the C locale, used by `atoi`. -/
def isspaceB (c : Nat) : Bool := c == 32 || (9 ≤ c && c ≤ 13)

/-- One bounded buffer of `parse_next_match` together with the write cursor. -/
structure CBuf where
  cap : Nat
  off : Nat
  avail : Nat
  mem : List Nat
  writes : List (Nat × Nat)
deriving Repr, DecidableEq

/-- A single byte store `buffer[i] = v`.  The declared array `mem` is updated
only when `i` is inside it (`List.set` is the identity past the end); the
store is always recorded in the write log. -/
def CBuf.store (b : CBuf) (i v : Nat) : CBuf :=
  { b with mem := b.mem.set i v, writes := b.writes ++ [(i, v)] }

/-- One iteration of the append loop of `parse_next_match` (lines 181-189):
`if (!buffer_avail) continue; else if (--buffer_avail == 0) *buffer++ = 0;
else *buffer++ = ch;`. -/
def CBuf.append1 (b : CBuf) (ch : Nat) : CBuf :=
  if b.avail = 0 then b
  else if b.avail - 1 = 0 then
    { b.store b.off 0 with off := b.off + 1, avail := b.avail - 1 }
  else
    { b.store b.off ch with off := b.off + 1, avail := b.avail - 1 }

/-- The append loop run `count` times with the same character
(`for (unsigned i = 0; i < appendcount; ++i)`). -/
def CBuf.appendN : CBuf → Nat → Nat → CBuf
  | b, 0, _ => b
  | b, n + 1, ch => CBuf.appendN (b.append1 ch) n ch

/-- Appending a list of characters one by one. -/
def CBuf.appendChars : CBuf → List Nat → CBuf
  | b, [] => b
  | b, c :: cs => CBuf.appendChars (b.append1 c) cs

/-- The characters actually appended for one input character that is neither
the separator nor a newline: a tab becomes `TAB_STOP` copies of `TAB_REPL`,
any other non-printable character becomes one `NONPRINT_REPL`, a printable
character is kept. -/
def sanitizeChar (c : Nat) : List Nat :=
  if isprint c = false then
    (if c = 9 then List.replicate TAB_STOP TAB_REPL else [NONPRINT_REPL])
  else [c]

/-- `sanitizeChar` mapped over a whole field. -/
def sanitizeStr : List Nat → List Nat
  | [] => []
  | c :: cs => sanitizeChar c ++ sanitizeStr cs

/-- The state of one `parse_next_match` call: the three buffers
(`m->filepath`, the stack buffer `line_num_buf`, `m->description`) and the
state counter of the 3-state machine. -/
structure PState where
  filepath : CBuf
  line_num_buf : CBuf
  description : CBuf
  state : Nat
deriving Repr, DecidableEq

/-- The buffer the C variable `buffer` currently points into (it is switched
exactly when `state` is incremented). -/
def PState.cur (s : PState) : CBuf :=
  if s.state = 0 then s.filepath
  else if s.state = 1 then s.line_num_buf
  else s.description

/-- Writing back the buffer `buffer` currently points into. -/
def PState.setCur (s : PState) (b : CBuf) : PState :=
  if s.state = 0 then { s with filepath := b }
  else if s.state = 1 then { s with line_num_buf := b }
  else { s with description := b }

/-- The body of the character loop of `parse_next_match` (lines 148-190).
The returned Bool is true when the loop `break`s (newline seen). -/
def procChar (s : PState) (ch : Nat) : PState × Bool :=
  if ch = SEPARATOR then
    if s.state = 0 then
      ({ s with
          filepath := s.filepath.store s.filepath.off 0,
          line_num_buf :=
            ({ s.line_num_buf with off := 0, avail := LINE_NUM_BUF_SIZE }).store 0 0,
          state := s.state + 1 }, false)
    else if s.state = 1 then
      ({ s with
          line_num_buf := s.line_num_buf.store s.line_num_buf.off 0,
          description :=
            ({ s.description with off := 0, avail := MATCH_DESCRIPTION_LEN }).store 0 0,
          state := s.state + 1 }, false)
    else
      (s.setCur (s.cur.appendN 1 ch), false)
  else if ch = NEWLINE then
    (s.setCur (s.cur.store s.cur.off 0), true)
  else if isprint ch = false then
    if ch = 9 then (s.setCur (s.cur.appendN TAB_STOP TAB_REPL), false)
    else (s.setCur (s.cur.appendN 1 NONPRINT_REPL), false)
  else
    (s.setCur (s.cur.appendN 1 ch), false)

/-- The character loop: processes input bytes until a newline (`some rest`
is the unread remainder of the stream) or end of stream (`none`). -/
def runParse : PState → List Nat → PState × Option (List Nat)
  | s, [] => (s, none)
  | s, ch :: rest =>
    let r := procChar s ch
    if r.2 then (r.1, some rest) else runParse r.1 rest

/-- Result of one `parse_next_match` call: 0 / 1 / EOF in the C source. -/
inductive PRes where
  | success
  | malformed
  | eof
deriving Repr, DecidableEq

/-- The parser state at the start of a call: all three buffers have their
full capacity available, the write pointer at the base, an empty write log,
and whatever bytes their memory currently holds (`m->filepath` and
`m->description` come from the caller's `struct match`, `line_num_buf` is
an uninitialized stack array). -/
def initPState (fpMem lnMem deMem : List Nat) : PState :=
  ⟨⟨MATCH_PATH_LEN, 0, MATCH_PATH_LEN, fpMem, []⟩,
   ⟨LINE_NUM_BUF_SIZE, 0, LINE_NUM_BUF_SIZE, lnMem, []⟩,
   ⟨MATCH_DESCRIPTION_LEN, 0, MATCH_DESCRIPTION_LEN, deMem, []⟩,
   0⟩

/-- One full `parse_next_match` call (lines 141-196): run the loop, then
return 0 (success) exactly when two structural separators were consumed and
a newline was reached; EOF whenever the stream ended. -/
def parse_next_match (s0 : PState) (input : List Nat) :
    PState × PRes × List Nat :=
  match runParse s0 input with
  | (s, none) => (s, PRes.eof, [])
  | (s, some r) =>
    (s, if s.state = 2 then PRes.success else PRes.malformed, r)

/-- The value of a C string stored in a byte array: the bytes up to the
first 0. -/
def cstr : List Nat → List Nat
  | [] => []
  | c :: cs => if c = 0 then [] else c :: cstr cs

/-- Digit-accumulation part of `atoi`. -/
def atoiDigits : List Nat → Nat → Nat
  | [], acc => acc
  | c :: cs, acc =>
    if 48 ≤ c ∧ c ≤ 57 then atoiDigits cs (acc * 10 + (c - 48)) else acc

/-- The exact mathematical value `strtol(s, NULL, 10)` reads before any
range saturation: skip whitespace, optional sign, then decimal digits. -/
def atoi_val (s : List Nat) : Int :=
  match s.dropWhile isspaceB with
  | [] => 0
  | c :: rest =>
    if c = 45 then -(atoiDigits rest 0 : Int)
    else if c = 43 then (atoiDigits rest 0 : Int)
    else (atoiDigits (c :: rest) 0 : Int)

/-- `strtol` saturates its result at LONG_MIN / LONG_MAX (64-bit long). -/
def strtol_val (s : List Nat) : Int :=
  max (-9223372036854775808) (min 9223372036854775807 (atoi_val s))

/-- The implementation-defined long-to-int conversion of the reference
platform (gcc/glibc, LP64): reduction modulo 2^32 into [-2^31, 2^31). -/
def wrap32 (v : Int) : Int := (v + 2147483648) % 4294967296 - 2147483648

/-- C `atoi` as on the reference platform (glibc/LP64): equivalent to
`(int)strtol(s, NULL, 10)`.  The C standard leaves `atoi` undefined when
the value does not fit an int; glibc computes strtol's saturated long and
narrows it to int with a modular wrap, so e.g. "4294967295" yields -1. -/
def atoi (s : List Nat) : Int := wrap32 (strtol_val s)

/-- One parsed match record, as its fields are observed by the rest of the
program: the C-string values of the two byte arrays and the `line` field
produced by `m->line = atoi(line_num_buf)`. -/
structure MatchRec where
  filepath : List Nat
  line : Int
  description : List Nat
deriving Repr, DecidableEq

/-- The record a successful call leaves in the `struct match` slot. -/
def extractMatch (s : PState) : MatchRec :=
  ⟨cstr s.filepath.mem, atoi (cstr s.line_num_buf.mem), cstr s.description.mem⟩

/-- The decimal digit string of a line number, as a serializer would render
it (most significant digit first, ASCII). -/
def natDigits (n : Nat) : List Nat :=
  if h : n < 10 then [48 + n] else natDigits (n / 10) ++ [48 + n % 10]
decreasing_by exact Nat.div_lt_self (by omega) (by omega)

/-- Number of separator bytes in a list. -/
def countSep : List Nat → Nat
  | [] => 0
  | c :: cs => (if c = SEPARATOR then 1 else 0) + countSep cs

/-- Sequential stores into a byte array starting at a given index. -/
def writeAt : List Nat → Nat → List Nat → List Nat
  | mem, _, [] => mem
  | mem, off, c :: cs => writeAt (mem.set off c) (off + 1) cs

/-- Fuel-indexed version of the parse loop of `build_menu` (lines 252-256).
`lnJunk k` is the uninitialized content of `line_num_buf` in the k-th call;
`slotJunk i` is the uninitialized content (filepath, description) of the
i-th `struct match` slot.  A malformed call leaves its bytes in the current
slot, which the next call reuses; a successful call finalizes the record
and moves to the next slot. -/
def build_menu_loopF : Nat → (Nat → List Nat) → (Nat → List Nat × List Nat) →
    Nat → Nat → List Nat → List Nat → List Nat → List MatchRec
  | 0, _, _, _, _, _, _, _ => []
  | fuel + 1, lnJunk, slotJunk, k, slot, fpMem, deMem, input =>
    match parse_next_match (initPState fpMem (lnJunk k) deMem) input with
    | (_, PRes.eof, _) => []
    | (s, PRes.success, rem) =>
      extractMatch s ::
        build_menu_loopF fuel lnJunk slotJunk (k + 1) (slot + 1)
          (slotJunk (slot + 1)).1 (slotJunk (slot + 1)).2 rem
    | (s, PRes.malformed, rem) =>
      build_menu_loopF fuel lnJunk slotJunk (k + 1) slot
        s.filepath.mem s.description.mem rem

/-- The parse loop of `build_menu`: the list of records appended to the
match store (one call of `parse_next_match` consumes at least one byte of
input unless it returns EOF, so `input.length + 1` fuel always suffices). -/
def build_menu_loop (lnJunk : Nat → List Nat) (slotJunk : Nat → List Nat × List Nat)
    (k slot : Nat) (fpMem deMem : List Nat) (input : List Nat) : List MatchRec :=
  build_menu_loopF (input.length + 1) lnJunk slotJunk k slot fpMem deMem input

/-- The match store counters: `matchc` (count) and `matcha` (capacity). -/
structure MatchStore where
  matchc : Nat
  matcha : Nat
deriving Repr, DecidableEq

/-- `resize_matchv` (lines 107-113): grow capacity by one fixed chunk
exactly when the store is full. -/
def resize_matchv (s : MatchStore) : MatchStore :=
  if s.matchc = s.matcha then { s with matcha := s.matcha + MATCH_CHUNK_LEN }
  else s

/-- `init_matchv` (lines 115-120): both counters zeroed, then one resize. -/
def init_matchv : MatchStore := resize_matchv ⟨0, 0⟩

/-- The store states the parse loop of `build_menu` can reach: the initial
state, and after each call either the count is unchanged (EOF / malformed)
or incremented (success), followed by the loop-update `resize_matchv()`. -/
inductive StoreReach : MatchStore → Prop
  | init : StoreReach init_matchv
  | step_skip (s : MatchStore) : StoreReach s → StoreReach (resize_matchv s)
  | step_add (s : MatchStore) : StoreReach s →
      StoreReach (resize_matchv ⟨s.matchc + 1, s.matcha⟩)

/-- Which diagnostic the zero-matches path prints. -/
inductive ZeroMsg where
  | forgot_numbering
  | no_matches
  | silent
deriving Repr, DecidableEq

/-- The zero-matches exit path of `build_menu` (lines 257-271), as a
function of the producer's exit status `WEXITSTATUS(status)`: the message
printed and the process exit status. -/
def zero_match_exit (producerStatus : Nat) : ZeroMsg × Nat :=
  (if producerStatus = 0 then ZeroMsg.forgot_numbering
   else if producerStatus = 1 then ZeroMsg.no_matches
   else ZeroMsg.silent,
   producerStatus)

/-- `build_menu` up to the point where it either takes the zero-matches
exit path (`some` outcome) or proceeds to build the menu (`none`). -/
def build_menu_result (lnJunk : Nat → List Nat)
    (slotJunk : Nat → List Nat × List Nat) (input : List Nat)
    (producerStatus : Nat) : Option (ZeroMsg × Nat) :=
  let ms := build_menu_loop lnJunk slotJunk 0 0 (slotJunk 0).1 (slotJunk 0).2 input
  if ms.length = 0 then some (zero_match_exit producerStatus) else none

/-- An all-zero initial parser state used by concrete evaluations. -/
def zeroState : PState :=
  initPState (List.replicate MATCH_PATH_LEN 0) (List.replicate LINE_NUM_BUF_SIZE 0)
    (List.replicate MATCH_DESCRIPTION_LEN 0)

/-! ### Basic properties of the state and buffer operations -/

theorem runParse_cons (s : PState) (c : Nat) (t : List Nat) :
    runParse s (c :: t) =
      if (procChar s c).2 then ((procChar s c).1, some t)
      else runParse (procChar s c).1 t := rfl

theorem setCur_state (s : PState) (b : CBuf) : (s.setCur b).state = s.state := by
  unfold PState.setCur; split_ifs <;> rfl

theorem cur_state0 (s : PState) (h : s.state = 0) : s.cur = s.filepath := by
  simp [PState.cur, h]

theorem cur_state1 (s : PState) (h : s.state = 1) : s.cur = s.line_num_buf := by
  simp [PState.cur, h]

theorem cur_state2 (s : PState) (h : 2 ≤ s.state) : s.cur = s.description := by
  unfold PState.cur
  rw [if_neg (by omega), if_neg (by omega)]

theorem setCur_state0 (s : PState) (b : CBuf) (h : s.state = 0) :
    s.setCur b = { s with filepath := b } := by
  simp [PState.setCur, h]

theorem setCur_state1 (s : PState) (b : CBuf) (h : s.state = 1) :
    s.setCur b = { s with line_num_buf := b } := by
  simp [PState.setCur, h]

theorem setCur_state2 (s : PState) (b : CBuf) (h : 2 ≤ s.state) :
    s.setCur b = { s with description := b } := by
  unfold PState.setCur
  rw [if_neg (by omega), if_neg (by omega)]

theorem setCur_cur (s : PState) : s.setCur s.cur = s := by
  obtain ⟨f, l, d, st⟩ := s
  by_cases h0 : st = 0
  · subst h0; rfl
  · by_cases h1 : st = 1
    · subst h1; rfl
    · show PState.setCur ⟨f, l, d, st⟩ (PState.cur ⟨f, l, d, st⟩) = _
      unfold PState.setCur PState.cur
      rw [if_neg h0, if_neg h1, if_neg h0, if_neg h1]

theorem setCur_setCur (s : PState) (b b' : CBuf) :
    (s.setCur b).setCur b' = s.setCur b' := by
  by_cases h0 : s.state = 0
  · simp [PState.setCur, h0]
  · by_cases h1 : s.state = 1 <;> simp [PState.setCur, h0, h1]

theorem cur_setCur (s : PState) (b : CBuf) : (s.setCur b).cur = b := by
  by_cases h0 : s.state = 0
  · simp [PState.setCur, PState.cur, h0]
  · by_cases h1 : s.state = 1 <;> simp [PState.setCur, PState.cur, h0, h1]

theorem CBuf.appendChars_append (xs : List Nat) : ∀ (b : CBuf) (ys : List Nat),
    b.appendChars (xs ++ ys) = (b.appendChars xs).appendChars ys := by
  induction xs with
  | nil => intro b ys; rfl
  | cons c cs ih => intro b ys; exact ih (b.append1 c) ys

theorem CBuf.appendN_eq (n : Nat) : ∀ (b : CBuf) (ch : Nat),
    b.appendN n ch = b.appendChars (List.replicate n ch) := by
  induction n with
  | zero => intro b ch; rfl
  | succ n ih =>
    intro b ch
    rw [List.replicate_succ]
    exact ih (b.append1 ch) ch

theorem procChar_other (s : PState) (ch : Nat) (hs : ch ≠ SEPARATOR)
    (hn : ch ≠ NEWLINE) :
    procChar s ch = (s.setCur (s.cur.appendChars (sanitizeChar ch)), false) := by
  unfold procChar sanitizeChar
  rw [if_neg hs, if_neg hn]
  split_ifs with hp ht
  · rw [CBuf.appendN_eq]
  · rw [CBuf.appendN_eq, List.replicate_one]
  · rw [CBuf.appendN_eq, List.replicate_one]

theorem runParse_newline (s : PState) (t : List Nat) :
    runParse s (NEWLINE :: t) = (s.setCur (s.cur.store s.cur.off 0), some t) := by
  rw [runParse_cons]
  have : procChar s NEWLINE = (s.setCur (s.cur.store s.cur.off 0), true) := by
    unfold procChar
    rw [if_neg (by simp [NEWLINE, SEPARATOR]), if_pos rfl]
  rw [this]
  rfl

theorem runParse_sep0 (s : PState) (t : List Nat) (h : s.state = 0) :
    runParse s (SEPARATOR :: t) =
      runParse
        ({ s with
            filepath := s.filepath.store s.filepath.off 0,
            line_num_buf :=
              ({ s.line_num_buf with off := 0, avail := LINE_NUM_BUF_SIZE }).store 0 0,
            state := s.state + 1 }) t := by
  rw [runParse_cons]
  have : procChar s SEPARATOR =
      ({ s with
          filepath := s.filepath.store s.filepath.off 0,
          line_num_buf :=
            ({ s.line_num_buf with off := 0, avail := LINE_NUM_BUF_SIZE }).store 0 0,
          state := s.state + 1 }, false) := by
    unfold procChar
    rw [if_pos rfl, if_pos h]
  rw [this]
  rfl

theorem runParse_sep1 (s : PState) (t : List Nat) (h : s.state = 1) :
    runParse s (SEPARATOR :: t) =
      runParse
        ({ s with
            line_num_buf := s.line_num_buf.store s.line_num_buf.off 0,
            description :=
              ({ s.description with off := 0, avail := MATCH_DESCRIPTION_LEN }).store 0 0,
            state := s.state + 1 }) t := by
  rw [runParse_cons]
  have : procChar s SEPARATOR =
      ({ s with
          line_num_buf := s.line_num_buf.store s.line_num_buf.off 0,
          description :=
            ({ s.description with off := 0, avail := MATCH_DESCRIPTION_LEN }).store 0 0,
          state := s.state + 1 }, false) := by
    unfold procChar
    rw [if_pos rfl, if_neg (by omega), if_pos h]
  rw [this]
  rfl

theorem runParse_sep2 (s : PState) (t : List Nat) (h : 2 ≤ s.state) :
    runParse s (SEPARATOR :: t) =
      runParse (s.setCur (s.cur.appendN 1 SEPARATOR)) t := by
  rw [runParse_cons]
  have : procChar s SEPARATOR = (s.setCur (s.cur.appendN 1 SEPARATOR), false) := by
    unfold procChar
    rw [if_pos rfl, if_neg (by omega), if_neg (by omega)]
  rw [this]
  rfl

theorem runParse_plain (cs : List Nat) : ∀ (s : PState) (rest : List Nat),
    (∀ c ∈ cs, c ≠ SEPARATOR ∧ c ≠ NEWLINE) →
    runParse s (cs ++ rest) =
      runParse (s.setCur (s.cur.appendChars (sanitizeStr cs))) rest := by
  induction cs with
  | nil =>
    intro s rest _
    show runParse s rest = _
    rw [show sanitizeStr [] = [] from rfl, show s.cur.appendChars [] = s.cur from rfl,
      setCur_cur]
  | cons c cs ih =>
    intro s rest h
    have hc := h c (List.mem_cons_self c cs)
    rw [List.cons_append, runParse_cons, procChar_other s c hc.1 hc.2]
    show runParse (s.setCur (s.cur.appendChars (sanitizeChar c))) (cs ++ rest) = _
    rw [ih _ rest (fun x hx => h x (List.mem_cons_of_mem c hx)),
      setCur_setCur, cur_setCur, ← CBuf.appendChars_append]
    rfl

/-! ### Memory effect of sequential stores and of the append loop -/

theorem writeAt_cons (cs : List Nat) : ∀ (m0 : Nat) (mem : List Nat) (off : Nat),
    writeAt (m0 :: mem) (off + 1) cs = m0 :: writeAt mem off cs := by
  induction cs with
  | nil => intro m0 mem off; rfl
  | cons c cs ih =>
    intro m0 mem off
    show writeAt ((m0 :: mem).set (off + 1) c) (off + 1 + 1) cs = _
    rw [List.set_cons_succ]
    exact ih m0 (mem.set off c) (off + 1)

theorem writeAt_length (cs : List Nat) : ∀ (mem : List Nat) (off : Nat),
    (writeAt mem off cs).length = mem.length := by
  induction cs with
  | nil => intro mem off; rfl
  | cons c cs ih =>
    intro mem off
    show (writeAt (mem.set off c) (off + 1) cs).length = _
    rw [ih, List.length_set]

theorem writeAt_eq : ∀ (off : Nat) (cs mem : List Nat), off + cs.length ≤ mem.length →
    writeAt mem off cs = mem.take off ++ cs ++ mem.drop (off + cs.length) := by
  intro off
  induction off with
  | zero =>
    intro cs
    induction cs with
    | nil => intro mem _; simp [writeAt]
    | cons c cs ih =>
      intro mem h
      match mem with
      | m0 :: mem' =>
        show writeAt ((m0 :: mem').set 0 c) 1 cs = _
        rw [show (m0 :: mem').set 0 c = c :: mem' from rfl, writeAt_cons,
          ih mem' (by simp at h ⊢; omega)]
        simp
  | succ off ih =>
    intro cs mem h
    match mem with
    | [] =>
      have : cs = [] := by
        cases cs
        · rfl
        · simp at h
      subst this; simp [writeAt]
    | m0 :: mem' =>
      rw [writeAt_cons, ih cs mem' (by simp at h ⊢; omega)]
      simp [List.take_succ_cons, List.drop_succ_cons]
      rw [show off + 1 + cs.length = (off + cs.length) + 1 by omega]
      simp

theorem CBuf.appendChars_avail_zero (cs : List Nat) : ∀ (b : CBuf), b.avail = 0 →
    b.appendChars cs = b := by
  induction cs with
  | nil => intro b _; rfl
  | cons c cs ih =>
    intro b h
    show (b.append1 c).appendChars cs = b
    rw [show b.append1 c = b by unfold CBuf.append1; rw [if_pos h]]
    exact ih b h

theorem CBuf.append1_normal (b : CBuf) (c : Nat) (h : 2 ≤ b.avail) :
    b.append1 c =
      ⟨b.cap, b.off + 1, b.avail - 1, b.mem.set b.off c, b.writes ++ [(b.off, c)]⟩ := by
  unfold CBuf.append1 CBuf.store
  rw [if_neg (by omega), if_neg (by omega)]

theorem CBuf.append1_last (b : CBuf) (c : Nat) (h : b.avail = 1) :
    b.append1 c =
      ⟨b.cap, b.off + 1, b.avail - 1, b.mem.set b.off 0, b.writes ++ [(b.off, 0)]⟩ := by
  unfold CBuf.append1 CBuf.store
  rw [if_neg (by omega), if_pos (by omega)]

theorem CBuf.appendChars_fits (cs : List Nat) : ∀ (b : CBuf),
    b.off + b.avail = b.cap → cs.length < b.avail →
    (b.appendChars cs).off = b.off + cs.length ∧
    (b.appendChars cs).avail = b.avail - cs.length ∧
    (b.appendChars cs).mem = writeAt b.mem b.off cs ∧
    (b.appendChars cs).cap = b.cap := by
  induction cs with
  | nil => intro b _ _; exact ⟨rfl, rfl, rfl, rfl⟩
  | cons c cs ih =>
    intro b h2 h3
    have hav : 2 ≤ b.avail := by simp at h3; omega
    have hstep : b.appendChars (c :: cs) =
        CBuf.appendChars
          ⟨b.cap, b.off + 1, b.avail - 1, b.mem.set b.off c,
            b.writes ++ [(b.off, c)]⟩ cs := by
      show (b.append1 c).appendChars cs = _
      rw [CBuf.append1_normal b c hav]
    rw [hstep]
    obtain ⟨ho, ha, hm, hc⟩ :=
      ih ⟨b.cap, b.off + 1, b.avail - 1, b.mem.set b.off c, b.writes ++ [(b.off, c)]⟩
        (by simp; omega) (by simp at h3 ⊢; omega)
    refine ⟨?_, ?_, ?_, ?_⟩
    · rw [ho]; simp; omega
    · rw [ha]; simp; omega
    · rw [hm]; rfl
    · rw [hc]

theorem CBuf.appendChars_overflow (cs : List Nat) : ∀ (b : CBuf),
    b.off + b.avail = b.cap → 1 ≤ b.avail → b.avail ≤ cs.length →
    (b.appendChars cs).off = b.cap ∧
    (b.appendChars cs).avail = 0 ∧
    (b.appendChars cs).mem = writeAt b.mem b.off (cs.take (b.avail - 1) ++ [0]) ∧
    (b.appendChars cs).cap = b.cap := by
  induction cs with
  | nil => intro b _ h3 h4; simp at h4; omega
  | cons c cs ih =>
    intro b h2 h3 h4
    by_cases hone : b.avail = 1
    · have hstep : b.appendChars (c :: cs) =
          ⟨b.cap, b.off + 1, b.avail - 1, b.mem.set b.off 0,
            b.writes ++ [(b.off, 0)]⟩ := by
        show (b.append1 c).appendChars cs = _
        rw [CBuf.append1_last b c hone,
          CBuf.appendChars_avail_zero cs _ (by simp [hone])]
      rw [hstep]
      refine ⟨by simp; omega, by simp [hone], ?_, rfl⟩
      simp [hone, writeAt]
    · have hav : 2 ≤ b.avail := by omega
      have hstep : b.appendChars (c :: cs) =
          CBuf.appendChars
            ⟨b.cap, b.off + 1, b.avail - 1, b.mem.set b.off c,
              b.writes ++ [(b.off, c)]⟩ cs := by
        show (b.append1 c).appendChars cs = _
        rw [CBuf.append1_normal b c hav]
      rw [hstep]
      obtain ⟨ho, ha, hm, hc⟩ :=
        ih ⟨b.cap, b.off + 1, b.avail - 1, b.mem.set b.off c, b.writes ++ [(b.off, c)]⟩
          (by simp; omega) (by simp; omega) (by simp at h4 ⊢; omega)
      refine ⟨by rw [ho], by rw [ha], ?_, by rw [hc]⟩
      rw [hm]
      show writeAt (b.mem.set b.off c) (b.off + 1) (cs.take (b.avail - 1 - 1) ++ [0]) = _
      have htake : (c :: cs).take (b.avail - 1) = c :: cs.take (b.avail - 1 - 1) := by
        obtain ⟨k, hk⟩ : ∃ k, b.avail - 1 = k + 1 := ⟨b.avail - 2, by omega⟩
        rw [hk, List.take_succ_cons, Nat.add_sub_cancel]
      rw [htake]
      rfl

theorem CBuf.appendN_writes (n : Nat) : ∀ (b : CBuf) (ch : Nat), n < b.avail →
    (b.appendN n ch).writes =
      b.writes ++ (List.range n).map (fun i => (b.off + i, ch)) := by
  induction n with
  | zero => intro b ch _; simp [CBuf.appendN]
  | succ n ih =>
    intro b ch h
    have hav : 2 ≤ b.avail := by omega
    have hstep : b.appendN (n + 1) ch =
        CBuf.appendN
          ⟨b.cap, b.off + 1, b.avail - 1, b.mem.set b.off ch,
            b.writes ++ [(b.off, ch)]⟩ n ch := by
      show (b.append1 ch).appendN n ch = _
      rw [CBuf.append1_normal b ch hav]
    rw [hstep,
      ih ⟨b.cap, b.off + 1, b.avail - 1, b.mem.set b.off ch, b.writes ++ [(b.off, ch)]⟩
        ch (by simp; omega)]
    have hmap : (List.range n).map (fun i => (b.off + 1 + i, ch)) =
        (List.range n).map ((fun i : Nat => (b.off + i, ch)) ∘ Nat.succ) := by
      have hfun : (fun i => (b.off + 1 + i, ch)) =
          ((fun i : Nat => (b.off + i, ch)) ∘ Nat.succ) := by
        funext i
        show (b.off + 1 + i, ch) = (b.off + Nat.succ i, ch)
        rw [show b.off + 1 + i = b.off + Nat.succ i by omega]
      rw [hfun]
    show (b.writes ++ [(b.off, ch)]) ++
        (List.range n).map (fun i => (b.off + 1 + i, ch)) = _
    rw [List.range_succ_eq_map, List.map_cons, List.map_map, List.append_assoc,
      List.singleton_append, hmap]
    simp

/-! ### Buffers already left behind by the state machine are never touched again -/

theorem setCur_filepath (s : PState) (b : CBuf) (h : s.state ≠ 0) :
    (s.setCur b).filepath = s.filepath := by
  unfold PState.setCur
  rw [if_neg h]
  split_ifs <;> rfl

theorem setCur_line_num (s : PState) (b : CBuf) (h : 2 ≤ s.state) :
    (s.setCur b).line_num_buf = s.line_num_buf := by
  unfold PState.setCur
  rw [if_neg (by omega), if_neg (by omega)]

theorem procChar_filepath_frozen (s : PState) (ch : Nat) (h : s.state ≠ 0) :
    ((procChar s ch).1).filepath = s.filepath ∧ (procChar s ch).1.state ≠ 0 := by
  have hset : ∀ b : CBuf,
      ((s.setCur b, false) : PState × Bool).1.filepath = s.filepath ∧
        ((s.setCur b, false) : PState × Bool).1.state ≠ 0 :=
    fun b => ⟨setCur_filepath s b h, by show (s.setCur b).state ≠ 0; rw [setCur_state]; exact h⟩
  unfold procChar
  by_cases hsep : ch = SEPARATOR
  · rw [if_pos hsep, if_neg h]
    by_cases hs1 : s.state = 1
    · rw [if_pos hs1]
      exact ⟨rfl, by simp⟩
    · rw [if_neg hs1]
      exact hset _
  · rw [if_neg hsep]
    by_cases hnl : ch = NEWLINE
    · rw [if_pos hnl]
      exact ⟨setCur_filepath s _ h, by show (s.setCur _).state ≠ 0; rw [setCur_state]; exact h⟩
    · rw [if_neg hnl]
      by_cases hnp : isprint ch = false
      · rw [if_pos hnp]
        by_cases ht : ch = 9
        · rw [if_pos ht]; exact hset _
        · rw [if_neg ht]; exact hset _
      · rw [if_neg hnp]; exact hset _

theorem runParse_filepath_frozen (inp : List Nat) : ∀ (s : PState), s.state ≠ 0 →
    ((runParse s inp).1).filepath = s.filepath := by
  induction inp with
  | nil => intro s _; rfl
  | cons c t ih =>
    intro s h
    rw [runParse_cons]
    obtain ⟨hf, hs⟩ := procChar_filepath_frozen s c h
    by_cases hb : (procChar s c).2
    · rw [if_pos hb]; exact hf
    · rw [if_neg hb, ih _ hs]; exact hf

theorem procChar_line_num_frozen (s : PState) (ch : Nat) (h : 2 ≤ s.state) :
    ((procChar s ch).1).line_num_buf = s.line_num_buf ∧
      2 ≤ (procChar s ch).1.state := by
  have hset : ∀ b : CBuf,
      ((s.setCur b, false) : PState × Bool).1.line_num_buf = s.line_num_buf ∧
        2 ≤ ((s.setCur b, false) : PState × Bool).1.state :=
    fun b => ⟨setCur_line_num s b h, by show 2 ≤ (s.setCur b).state; rw [setCur_state]; exact h⟩
  unfold procChar
  by_cases hsep : ch = SEPARATOR
  · rw [if_pos hsep, if_neg (by omega), if_neg (by omega)]
    exact hset _
  · rw [if_neg hsep]
    by_cases hnl : ch = NEWLINE
    · rw [if_pos hnl]
      exact ⟨setCur_line_num s _ h, by show 2 ≤ (s.setCur _).state; rw [setCur_state]; exact h⟩
    · rw [if_neg hnl]
      by_cases hnp : isprint ch = false
      · rw [if_pos hnp]
        by_cases ht : ch = 9
        · rw [if_pos ht]; exact hset _
        · rw [if_neg ht]; exact hset _
      · rw [if_neg hnp]; exact hset _

theorem runParse_line_num_frozen (inp : List Nat) : ∀ (s : PState), 2 ≤ s.state →
    ((runParse s inp).1).line_num_buf = s.line_num_buf := by
  induction inp with
  | nil => intro s _; rfl
  | cons c t ih =>
    intro s h
    rw [runParse_cons]
    obtain ⟨hf, hs⟩ := procChar_line_num_frozen s c h
    by_cases hb : (procChar s c).2
    · rw [if_pos hb]; exact hf
    · rw [if_neg hb, ih _ hs]; exact hf

/-! ### State evolution over a newline-free stretch of input -/

theorem runParse_no_newline (cs : List Nat) : ∀ (s : PState) (rest : List Nat),
    (∀ c ∈ cs, c ≠ NEWLINE) → s.state ≤ 2 →
    ∃ s', runParse s (cs ++ rest) = runParse s' rest ∧
      s'.state = min 2 (s.state + countSep cs) := by
  induction cs with
  | nil =>
    intro s rest _ hs
    refine ⟨s, rfl, ?_⟩
    show s.state = min 2 (s.state + 0)
    omega
  | cons c cs ih =>
    intro s rest h hs
    by_cases hc : c = SEPARATOR
    · subst hc
      by_cases h0 : s.state = 0
      · rw [List.cons_append, runParse_sep0 s _ h0]
        obtain ⟨s', he, hst⟩ :=
          ih ({ s with
                filepath := s.filepath.store s.filepath.off 0,
                line_num_buf :=
                  ({ s.line_num_buf with off := 0, avail := LINE_NUM_BUF_SIZE }).store 0 0,
                state := s.state + 1 }) rest
            (fun x hx => h x (List.mem_cons_of_mem _ hx))
            (by show s.state + 1 ≤ 2; omega)
        refine ⟨s', he, ?_⟩
        rw [hst]
        show min 2 (s.state + 1 + countSep cs) = min 2 (s.state + (1 + countSep cs))
        omega
      · by_cases h1 : s.state = 1
        · rw [List.cons_append, runParse_sep1 s _ h1]
          obtain ⟨s', he, hst⟩ :=
            ih ({ s with
                  line_num_buf := s.line_num_buf.store s.line_num_buf.off 0,
                  description :=
                    ({ s.description with off := 0, avail := MATCH_DESCRIPTION_LEN }).store 0 0,
                  state := s.state + 1 }) rest
              (fun x hx => h x (List.mem_cons_of_mem _ hx))
              (by show s.state + 1 ≤ 2; omega)
          refine ⟨s', he, ?_⟩
          rw [hst]
          show min 2 (s.state + 1 + countSep cs) = min 2 (s.state + (1 + countSep cs))
          omega
        · have h2 : 2 ≤ s.state := by omega
          rw [List.cons_append, runParse_sep2 s _ h2]
          obtain ⟨s', he, hst⟩ :=
            ih (s.setCur (s.cur.appendN 1 SEPARATOR)) rest
              (fun x hx => h x (List.mem_cons_of_mem _ hx))
              (by rw [setCur_state]; omega)
          refine ⟨s', he, ?_⟩
          rw [hst, setCur_state]
          show min 2 (s.state + countSep cs) = min 2 (s.state + (1 + countSep cs))
          omega
    · have hcn := h c (List.mem_cons_self c cs)
      rw [List.cons_append, runParse_cons, procChar_other s c hc hcn]
      obtain ⟨s', he, hst⟩ :=
        ih (s.setCur (s.cur.appendChars (sanitizeChar c))) rest
          (fun x hx => h x (List.mem_cons_of_mem _ hx)) (by rw [setCur_state]; omega)
      refine ⟨s', ?_, ?_⟩
      · simpa using he
      · rw [hst, setCur_state,
          show countSep (c :: cs) = (if c = SEPARATOR then 1 else 0) + countSep cs
            from rfl,
          if_neg hc]
        omega

/-! ### The parser consumes input, and unfolding lemmas for the parse loop -/

theorem runParse_some_length (inp : List Nat) : ∀ (s s' : PState) (r : List Nat),
    runParse s inp = (s', some r) → r.length < inp.length := by
  induction inp with
  | nil =>
    intro s s' r h
    simp [runParse] at h
  | cons c t ih =>
    intro s s' r h
    rw [runParse_cons] at h
    by_cases hb : (procChar s c).2
    · rw [if_pos hb] at h
      have h2 : some t = some r := congrArg (fun p => p.2) h
      have h3 : t = r := by simpa using h2
      subst h3
      simp
    · rw [if_neg hb] at h
      have := ih _ _ _ h
      simp
      omega

theorem parse_next_match_fst (s0 : PState) (inp : List Nat) :
    (parse_next_match s0 inp).1 = (runParse s0 inp).1 := by
  unfold parse_next_match
  rcases h : runParse s0 inp with ⟨s, r⟩
  cases r <;> simp

theorem parse_next_match_some (s0 : PState) (inp : List Nat) (s : PState)
    (r : List Nat) (h : runParse s0 inp = (s, some r)) :
    parse_next_match s0 inp =
      (s, if s.state = 2 then PRes.success else PRes.malformed, r) := by
  unfold parse_next_match
  rw [h]

theorem parse_next_match_none (s0 : PState) (inp : List Nat) (s : PState)
    (h : runParse s0 inp = (s, none)) :
    parse_next_match s0 inp = (s, PRes.eof, []) := by
  unfold parse_next_match
  rw [h]

theorem parse_next_match_consumes (s0 : PState) (inp : List Nat) (s : PState)
    (res : PRes) (rem : List Nat) (h : parse_next_match s0 inp = (s, res, rem))
    (hne : res ≠ PRes.eof) : rem.length < inp.length := by
  rcases hr : runParse s0 inp with ⟨s1, r1⟩
  cases r1 with
  | none =>
    rw [parse_next_match_none s0 inp s1 hr] at h
    exact absurd (congrArg (fun p => p.2.1) h).symm hne
  | some r =>
    rw [parse_next_match_some s0 inp s1 r hr] at h
    have h3 : r = rem := by simpa using congrArg (fun p => p.2.2) h
    subst h3
    exact runParse_some_length inp s0 s1 r hr

theorem build_menu_loopF_succ (fuel : Nat) (lnJunk : Nat → List Nat)
    (slotJunk : Nat → List Nat × List Nat) (k slot : Nat)
    (fpMem deMem input : List Nat) :
    build_menu_loopF (fuel + 1) lnJunk slotJunk k slot fpMem deMem input =
      match parse_next_match (initPState fpMem (lnJunk k) deMem) input with
      | (_, PRes.eof, _) => []
      | (s, PRes.success, rem) =>
        extractMatch s ::
          build_menu_loopF fuel lnJunk slotJunk (k + 1) (slot + 1)
            (slotJunk (slot + 1)).1 (slotJunk (slot + 1)).2 rem
      | (s, PRes.malformed, rem) =>
        build_menu_loopF fuel lnJunk slotJunk (k + 1) slot
          s.filepath.mem s.description.mem rem := rfl

theorem build_menu_loopF_irrel (fuel1 : Nat) : ∀ (fuel2 : Nat)
    (lnJunk : Nat → List Nat) (slotJunk : Nat → List Nat × List Nat)
    (k slot : Nat) (fpMem deMem input : List Nat),
    input.length < fuel1 → input.length < fuel2 →
    build_menu_loopF fuel1 lnJunk slotJunk k slot fpMem deMem input =
      build_menu_loopF fuel2 lnJunk slotJunk k slot fpMem deMem input := by
  induction fuel1 with
  | zero => intro fuel2 lnJ slotJ k slot fpM deM input h1 h2; omega
  | succ f ih =>
    intro fuel2 lnJ slotJ k slot fpM deM input h1 h2
    match fuel2 with
    | 0 => omega
    | g + 1 =>
      rw [build_menu_loopF_succ, build_menu_loopF_succ]
      rcases hp : parse_next_match (initPState fpM (lnJ k) deM) input with ⟨s, res, rem⟩
      cases res with
      | eof => rfl
      | success =>
        have hlen : rem.length < input.length :=
          parse_next_match_consumes _ _ _ _ _ hp (fun hq => PRes.noConfusion hq)
        show extractMatch s :: build_menu_loopF f lnJ slotJ (k + 1) (slot + 1) _ _ rem =
          extractMatch s :: build_menu_loopF g lnJ slotJ (k + 1) (slot + 1) _ _ rem
        rw [ih g lnJ slotJ (k + 1) (slot + 1) _ _ rem (by omega) (by omega)]
      | malformed =>
        have hlen : rem.length < input.length :=
          parse_next_match_consumes _ _ _ _ _ hp (fun hq => PRes.noConfusion hq)
        show build_menu_loopF f lnJ slotJ (k + 1) slot _ _ rem =
          build_menu_loopF g lnJ slotJ (k + 1) slot _ _ rem
        exact ih g lnJ slotJ (k + 1) slot _ _ rem (by omega) (by omega)

theorem build_menu_loopF_eq (fuel : Nat) (lnJunk : Nat → List Nat)
    (slotJunk : Nat → List Nat × List Nat) (k slot : Nat)
    (fpMem deMem input : List Nat) (h : input.length < fuel) :
    build_menu_loopF fuel lnJunk slotJunk k slot fpMem deMem input =
      build_menu_loop lnJunk slotJunk k slot fpMem deMem input :=
  build_menu_loopF_irrel fuel (input.length + 1) lnJunk slotJunk k slot
    fpMem deMem input h (by omega)

theorem build_menu_loop_eof (lnJunk : Nat → List Nat)
    (slotJunk : Nat → List Nat × List Nat) (k slot : Nat)
    (fpMem deMem input : List Nat) (s : PState) (rem : List Nat)
    (h : parse_next_match (initPState fpMem (lnJunk k) deMem) input =
      (s, PRes.eof, rem)) :
    build_menu_loop lnJunk slotJunk k slot fpMem deMem input = [] := by
  unfold build_menu_loop
  rw [build_menu_loopF_succ, h]

theorem build_menu_loop_malformed (lnJunk : Nat → List Nat)
    (slotJunk : Nat → List Nat × List Nat) (k slot : Nat)
    (fpMem deMem input : List Nat) (s : PState) (rem : List Nat)
    (h : parse_next_match (initPState fpMem (lnJunk k) deMem) input =
      (s, PRes.malformed, rem)) :
    build_menu_loop lnJunk slotJunk k slot fpMem deMem input =
      build_menu_loop lnJunk slotJunk (k + 1) slot s.filepath.mem
        s.description.mem rem := by
  have hlen : rem.length < input.length :=
    parse_next_match_consumes _ _ _ _ _ h (fun hq => PRes.noConfusion hq)
  unfold build_menu_loop
  rw [build_menu_loopF_succ, h]
  show build_menu_loopF input.length lnJunk slotJunk (k + 1) slot
      s.filepath.mem s.description.mem rem = _
  exact build_menu_loopF_irrel input.length (rem.length + 1) lnJunk slotJunk
    (k + 1) slot _ _ rem hlen (by omega)

theorem build_menu_loop_success (lnJunk : Nat → List Nat)
    (slotJunk : Nat → List Nat × List Nat) (k slot : Nat)
    (fpMem deMem input : List Nat) (s : PState) (rem : List Nat)
    (h : parse_next_match (initPState fpMem (lnJunk k) deMem) input =
      (s, PRes.success, rem)) :
    build_menu_loop lnJunk slotJunk k slot fpMem deMem input =
      extractMatch s ::
        build_menu_loop lnJunk slotJunk (k + 1) (slot + 1)
          (slotJunk (slot + 1)).1 (slotJunk (slot + 1)).2 rem := by
  have hlen : rem.length < input.length :=
    parse_next_match_consumes _ _ _ _ _ h (fun hq => PRes.noConfusion hq)
  unfold build_menu_loop
  rw [build_menu_loopF_succ, h]
  show extractMatch s :: build_menu_loopF input.length lnJunk slotJunk (k + 1)
      (slot + 1) (slotJunk (slot + 1)).1 (slotJunk (slot + 1)).2 rem = _
  rw [build_menu_loopF_irrel input.length (rem.length + 1) lnJunk slotJunk
    (k + 1) (slot + 1) _ _ rem hlen (by omega)]

/-! ### C strings, digits, atoi -/

theorem cstr_prefix (xs : List Nat) : ∀ (ys : List Nat), 0 ∉ xs →
    cstr (xs ++ 0 :: ys) = xs := by
  induction xs with
  | nil => intro ys _; simp [cstr]
  | cons x xs ih =>
    intro ys h
    show (if x = 0 then [] else x :: cstr (xs ++ 0 :: ys)) = x :: xs
    rw [if_neg (by simp at h; omega), ih ys (by simp at h; exact h.2)]

theorem sanitizeChar_printable (c : Nat) (h : isprint c = true) :
    sanitizeChar c = [c] := by
  unfold sanitizeChar
  rw [if_neg (by rw [h]; simp)]

theorem sanitizeStr_printable (cs : List Nat) (h : ∀ c ∈ cs, isprint c = true) :
    sanitizeStr cs = cs := by
  induction cs with
  | nil => rfl
  | cons c cs ih =>
    show sanitizeChar c ++ sanitizeStr cs = c :: cs
    rw [sanitizeChar_printable c (h c (List.mem_cons_self c cs)),
      ih (fun x hx => h x (List.mem_cons_of_mem c hx))]
    rfl

theorem sanitizeChar_length (c : Nat) : 1 ≤ (sanitizeChar c).length := by
  unfold sanitizeChar
  split_ifs <;> simp [TAB_STOP]

theorem sanitizeStr_length (cs : List Nat) :
    cs.length ≤ (sanitizeStr cs).length := by
  induction cs with
  | nil => simp
  | cons c cs ih =>
    show (c :: cs).length ≤ (sanitizeChar c ++ sanitizeStr cs).length
    have := sanitizeChar_length c
    simp at ih ⊢
    omega

theorem natDigits_digits (n : Nat) : ∀ c ∈ natDigits n, 48 ≤ c ∧ c ≤ 57 := by
  induction n using Nat.strong_induction_on with
  | _ n ih =>
    intro c hc
    rw [natDigits] at hc
    split_ifs at hc with h
    · simp at hc
      omega
    · rcases List.mem_append.1 hc with h1 | h2
      · exact ih (n / 10) (Nat.div_lt_self (by omega) (by omega)) c h1
      · have : c = 48 + n % 10 := by simpa using h2
        have := Nat.mod_lt n (show 0 < 10 by omega)
        omega

theorem natDigits_ne_nil (n : Nat) : natDigits n ≠ [] := by
  rw [natDigits]
  split_ifs <;> simp

theorem natDigits_length_le (k : Nat) : ∀ (n : Nat), 1 ≤ k → n < 10 ^ k →
    (natDigits n).length ≤ k := by
  induction k with
  | zero => intro n h _; omega
  | succ k ih =>
    intro n _ hn
    rw [natDigits]
    split_ifs with h
    · simp
    · have hk : 1 ≤ k := by
        by_contra hk0
        have : k = 0 := by omega
        subst this
        simp at hn
        omega
      have hdiv : n / 10 < 10 ^ k := by
        rw [Nat.div_lt_iff_lt_mul (by omega)]
        calc n < 10 ^ (k + 1) := hn
          _ = 10 ^ k * 10 := by rw [pow_succ]
      have := ih (n / 10) hk hdiv
      simp
      omega

theorem atoiDigits_append (xs : List Nat) :
    (∀ c ∈ xs, 48 ≤ c ∧ c ≤ 57) → ∀ (ys : List Nat) (acc : Nat),
    atoiDigits (xs ++ ys) acc = atoiDigits ys (atoiDigits xs acc) := by
  induction xs with
  | nil => intro _ ys acc; rfl
  | cons x xs ih =>
    intro h ys acc
    have hx := h x (List.mem_cons_self x xs)
    show (if 48 ≤ x ∧ x ≤ 57 then atoiDigits (xs ++ ys) (acc * 10 + (x - 48))
        else acc) = _
    rw [if_pos hx, ih (fun c hc => h c (List.mem_cons_of_mem x hc)) ys
      (acc * 10 + (x - 48))]
    show _ = atoiDigits ys (if 48 ≤ x ∧ x ≤ 57
      then atoiDigits xs (acc * 10 + (x - 48)) else acc)
    rw [if_pos hx]

theorem atoiDigits_natDigits (n : Nat) : ∀ (acc : Nat),
    atoiDigits (natDigits n) acc = acc * 10 ^ (natDigits n).length + n := by
  induction n using Nat.strong_induction_on with
  | _ n ih =>
    intro acc
    rw [natDigits]
    split_ifs with h
    · show (if 48 ≤ 48 + n ∧ 48 + n ≤ 57 then atoiDigits [] (acc * 10 + (48 + n - 48))
        else acc) = _
      rw [if_pos (by omega)]
      show acc * 10 + (48 + n - 48) = acc * 10 ^ 1 + n
      rw [pow_one]
      omega
    · rw [List.length_append,
        atoiDigits_append (natDigits (n / 10))
          (natDigits_digits (n / 10)) [48 + n % 10] acc,
        ih (n / 10) (Nat.div_lt_self (by omega) (by omega)) acc]
      have hmod : n % 10 ≤ 9 := by
        have := Nat.mod_lt n (show 0 < 10 by omega)
        omega
      show (if 48 ≤ 48 + n % 10 ∧ 48 + n % 10 ≤ 57 then
          atoiDigits [] ((acc * 10 ^ (natDigits (n / 10)).length + n / 10) * 10 +
            (48 + n % 10 - 48))
        else _) = _
      rw [if_pos (by omega)]
      show (acc * 10 ^ (natDigits (n / 10)).length + n / 10) * 10 +
          (48 + n % 10 - 48) =
        acc * 10 ^ ((natDigits (n / 10)).length + 1) + n
      have hdm := Nat.div_add_mod n 10
      rw [pow_succ]
      have h48 : 48 + n % 10 - 48 = n % 10 := by omega
      rw [h48]
      calc (acc * 10 ^ (natDigits (n / 10)).length + n / 10) * 10 + n % 10
          = acc * (10 ^ (natDigits (n / 10)).length * 10) +
            (10 * (n / 10) + n % 10) := by ring
        _ = acc * (10 ^ (natDigits (n / 10)).length * 10) + n := by rw [hdm]

theorem atoi_val_natDigits (n : Nat) : atoi_val (natDigits n) = (n : Int) := by
  rcases hd : natDigits n with _ | ⟨c, t⟩
  · exact absurd hd (natDigits_ne_nil n)
  · have hc : 48 ≤ c ∧ c ≤ 57 :=
      natDigits_digits n c (hd ▸ List.mem_cons_self c t)
    have hsp : ¬isspaceB c = true := by
      simp [isspaceB]
      omega
    unfold atoi_val
    rw [List.dropWhile_cons, if_neg hsp]
    show (if c = 45 then -(atoiDigits t 0 : Int)
      else if c = 43 then (atoiDigits t 0 : Int)
      else (atoiDigits (c :: t) 0 : Int)) = (n : Int)
    rw [if_neg (by omega), if_neg (by omega), ← hd,
      atoiDigits_natDigits n 0]
    simp

theorem wrap32_id (v : Int) (h1 : -2147483648 ≤ v) (h2 : v ≤ 2147483647) :
    wrap32 v = v := by
  unfold wrap32
  omega

theorem atoi_natDigits (n : Nat) (hn : n ≤ 2147483647) :
    atoi (natDigits n) = (n : Int) := by
  unfold atoi strtol_val
  rw [atoi_val_natDigits,
    show min 9223372036854775807 (n : Int) = (n : Int) by omega,
    show max (-9223372036854775808) (n : Int) = (n : Int) by omega]
  exact wrap32_id _ (by omega) (by omega)

theorem atoi_val_nonneg (s : List Nat) (h : 45 ∉ s) : 0 ≤ atoi_val s := by
  unfold atoi_val
  rcases hdw : s.dropWhile isspaceB with _ | ⟨c, t⟩
  · show (0 : Int) ≤ 0
    omega
  · have hc : c ≠ 45 := by
      intro hc45
      subst hc45
      exact h ((List.dropWhile_sublist isspaceB).subset
        (hdw ▸ List.mem_cons_self 45 t))
    show (0 : Int) ≤ if c = 45 then -(atoiDigits t 0 : Int)
      else if c = 43 then (atoiDigits t 0 : Int)
      else (atoiDigits (c :: t) 0 : Int)
    rw [if_neg hc]
    split_ifs <;> exact Int.natCast_nonneg _

theorem atoi_nonneg (s : List Nat) (h : 45 ∉ s)
    (hr : atoi_val s ≤ 2147483647) : 0 ≤ atoi s := by
  have hv := atoi_val_nonneg s h
  unfold atoi strtol_val
  rw [show min 9223372036854775807 (atoi_val s) = atoi_val s by omega,
    show max (-9223372036854775808) (atoi_val s) = atoi_val s by omega,
    wrap32_id _ (by omega) (by omega)]
  exact hv

/-! ### The match store -/

theorem store_reach_lt (s : MatchStore) (h : StoreReach s) :
    s.matchc < s.matcha := by
  induction h with
  | init =>
    show init_matchv.matchc < init_matchv.matcha
    simp [init_matchv, resize_matchv, MATCH_CHUNK_LEN]
  | step_skip s _ ih =>
    unfold resize_matchv
    split_ifs with h1
    · simp [MATCH_CHUNK_LEN]
      omega
    · exact ih
  | step_add s _ ih =>
    unfold resize_matchv
    split_ifs with h1 <;> simp [MATCH_CHUNK_LEN] at h1 ⊢ <;> omega

/-! ### A fresh bounded buffer: effect of a whole field plus terminator -/

theorem fresh_buf_overflow (cap : Nat) (mem cs : List Nat) (w : List (Nat × Nat))
    (hmem : mem.length = cap) (hcap : 1 ≤ cap) (hcs : cap ≤ cs.length) :
    ((CBuf.appendChars ⟨cap, 0, cap, mem, w⟩ cs).store
        (CBuf.appendChars ⟨cap, 0, cap, mem, w⟩ cs).off 0).mem =
      cs.take (cap - 1) ++ [0] := by
  obtain ⟨ho, ha, hm, hc⟩ :=
    CBuf.appendChars_overflow cs ⟨cap, 0, cap, mem, w⟩
      (by show 0 + cap = cap; omega) hcap hcs
  show ((CBuf.appendChars ⟨cap, 0, cap, mem, w⟩ cs).mem).set
      ((CBuf.appendChars ⟨cap, 0, cap, mem, w⟩ cs).off) 0 = _
  rw [ho, hm]
  show (writeAt mem 0 (cs.take (cap - 1) ++ [0])).set cap 0 = _
  have hl : (cs.take (cap - 1) ++ [0]).length = cap := by
    simp [List.length_take]
    omega
  rw [List.set_eq_of_length_le (by rw [writeAt_length]; omega),
    writeAt_eq 0 (cs.take (cap - 1) ++ [0]) mem (by rw [hl]; omega)]
  rw [Nat.zero_add, hl]
  show [] ++ (cs.take (cap - 1) ++ [0]) ++ mem.drop cap = _
  rw [List.drop_eq_nil_of_le (by omega)]
  simp

theorem fresh_buf_fits_cstr (cap : Nat) (mem cs : List Nat) (w : List (Nat × Nat))
    (hmem : mem.length = cap) (hcs : cs.length < cap) (h0 : 0 ∉ cs) :
    cstr ((CBuf.appendChars ⟨cap, 0, cap, mem, w⟩ cs).store
        (CBuf.appendChars ⟨cap, 0, cap, mem, w⟩ cs).off 0).mem = cs := by
  obtain ⟨ho, ha, hm, hc⟩ :=
    CBuf.appendChars_fits cs ⟨cap, 0, cap, mem, w⟩
      (by show 0 + cap = cap; omega) hcs
  show cstr (((CBuf.appendChars ⟨cap, 0, cap, mem, w⟩ cs).mem).set
      ((CBuf.appendChars ⟨cap, 0, cap, mem, w⟩ cs).off) 0) = _
  rw [ho, hm]
  show cstr ((writeAt mem 0 cs).set (0 + cs.length) 0) = _
  rw [Nat.zero_add, writeAt_eq 0 cs mem (by omega), Nat.zero_add]
  show cstr (([] ++ cs ++ mem.drop cs.length).set cs.length 0) = _
  rw [List.nil_append,
    List.set_eq_take_cons_drop 0 (show cs.length < (cs ++ mem.drop cs.length).length by
      simp
      omega),
    List.take_left' rfl]
  exact cstr_prefix cs _ h0

/-! ### The claims -/

/-- Claim C9: in every store state the parse loop of `build_menu` can reach,
the count does not exceed the capacity; and `resize_matchv` grows the
capacity by exactly the fixed chunk `MATCH_CHUNK_LEN` precisely when the
count equals the capacity before an append, leaving the store untouched
otherwise (the growth is by a fixed chunk, not geometric). -/
theorem c9_store_growth :
    (∀ s : MatchStore, StoreReach s → s.matchc ≤ s.matcha) ∧
    (∀ s : MatchStore,
      ((resize_matchv s).matcha = s.matcha + MATCH_CHUNK_LEN ↔ s.matchc = s.matcha) ∧
      (resize_matchv s).matchc = s.matchc ∧
      (s.matchc ≠ s.matcha → resize_matchv s = s)) := by
  constructor
  · intro s h
    have := store_reach_lt s h
    omega
  · intro s
    refine ⟨⟨?_, ?_⟩, ?_, ?_⟩
    · intro h
      by_contra hne
      rw [show resize_matchv s = s from by unfold resize_matchv; rw [if_neg hne]] at h
      simp [MATCH_CHUNK_LEN] at h
    · intro h
      unfold resize_matchv
      rw [if_pos h]
    · unfold resize_matchv
      split_ifs <;> rfl
    · intro h
      unfold resize_matchv
      rw [if_neg h]

/-- Witness for C9 at the initial store state reached by `init_matchv`. -/
theorem c9_store_growth_witness :
    init_matchv.matchc ≤ init_matchv.matcha :=
  c9_store_growth.1 init_matchv StoreReach.init

/-- Claim C4: when zero records were parsed, `build_menu` takes the
zero-matches exit path; producer exit status 1 yields the "no matches"
message and exit status 1, producer status 0 yields the "did you forget
the numbering option" message and exit status 0, and any other producer
status is propagated unchanged as the exit status (with no message). -/
theorem c4_zero_matches_exit (lnJunk : Nat → List Nat)
    (slotJunk : Nat → List Nat × List Nat) (input : List Nat) (e : Nat)
    (h : (build_menu_loop lnJunk slotJunk 0 0 (slotJunk 0).1 (slotJunk 0).2
        input).length = 0) :
    build_menu_result lnJunk slotJunk input e = some (zero_match_exit e) ∧
    (e = 1 → zero_match_exit e = (ZeroMsg.no_matches, 1)) ∧
    (e = 0 → zero_match_exit e = (ZeroMsg.forgot_numbering, 0)) ∧
    (e ≠ 0 → e ≠ 1 → zero_match_exit e = (ZeroMsg.silent, e)) := by
  refine ⟨?_, ?_, ?_, ?_⟩
  · show (if (build_menu_loop lnJunk slotJunk 0 0 (slotJunk 0).1 (slotJunk 0).2
        input).length = 0 then some (zero_match_exit e) else none) =
      some (zero_match_exit e)
    rw [if_pos h]
  · intro he
    subst he
    rfl
  · intro he
    subst he
    rfl
  · intro h0 h1
    unfold zero_match_exit
    rw [if_neg h0, if_neg h1]

/-- Witness for C4: an empty producer stream parses zero records; with
producer exit status 1 the program reports "no matches" and exits 1. -/
theorem c4_zero_matches_exit_witness :
    build_menu_result (fun _ => []) (fun _ => ([], [])) [] 1 =
      some (zero_match_exit 1) ∧
    zero_match_exit 1 = (ZeroMsg.no_matches, 1) :=
  ⟨(c4_zero_matches_exit (fun _ => []) (fun _ => ([], [])) [] 1 rfl).1,
   (c4_zero_matches_exit (fun _ => []) (fun _ => ([], [])) [] 1 rfl).2.1 rfl⟩

/-- Claim C7: once both the filepath and the line field have been consumed
(state 2), a further separator character is not structural: the parser
appends the separator byte itself literally to the description buffer
(a single write of the separator byte, capacity permitting) and does not
end the line. -/
theorem c7_separator_literal (s : PState) (h : s.state = 2) :
    procChar s SEPARATOR =
      ({ s with description := s.description.appendN 1 SEPARATOR }, false) ∧
    (1 < s.description.avail →
      (s.description.appendN 1 SEPARATOR).writes =
        s.description.writes ++ [(s.description.off, SEPARATOR)]) := by
  constructor
  · unfold procChar
    rw [if_pos rfl, if_neg (by omega), if_neg (by omega),
      cur_state2 s (by omega), setCur_state2 s _ (by omega)]
  · intro hav
    rw [CBuf.appendN_writes 1 s.description SEPARATOR hav,
      show List.range 1 = [0] from rfl]
    simp

/-- Witness for C7 at a concrete state-2 parser state. -/
theorem c7_separator_literal_witness :
    procChar ({ zeroState with state := 2 }) SEPARATOR =
      ({ ({ zeroState with state := 2 }) with
          description :=
            ({ zeroState with state := 2 }).description.appendN 1 SEPARATOR },
        false) ∧
    (1 < ({ zeroState with state := 2 }).description.avail →
      (({ zeroState with state := 2 }).description.appendN 1 SEPARATOR).writes =
        ({ zeroState with state := 2 }).description.writes ++
          [(({ zeroState with state := 2 }).description.off, SEPARATOR)]) :=
  c7_separator_literal ({ zeroState with state := 2 }) rfl

/-- Claim C5 counterexample: the newline byte 10 is non-printable and is not
the tab character, yet the parser does not append a placeholder for it — it
writes only the 0 terminator into the current (filepath) buffer, its append
cursor stays at 0, and no NONPRINT_REPL byte is written. -/
theorem c5_newline_counterexample :
    isprint NEWLINE = false ∧ NEWLINE ≠ 9 ∧
    (procChar zeroState NEWLINE).1.filepath.writes = [(0, 0)] ∧
    (procChar zeroState NEWLINE).1.filepath.off = 0 ∧
    NONPRINT_REPL ∉ ((procChar zeroState NEWLINE).1.filepath.writes.map Prod.snd) :=
  ⟨by decide, by decide, by decide, by decide, by decide⟩

/-- Claim C5 (amended): for every non-printable input character other than
tab and newline, the parser appends exactly one fixed placeholder character
(NONPRINT_REPL) to the current field buffer — a single write, capacity
permitting — and for a tab it appends exactly TAB_STOP replacement space
characters; a newline instead terminates the current field. -/
theorem c5_nonprintable_sanitization (s : PState) (ch : Nat)
    (hp : isprint ch = false) (ht : ch ≠ 9) (hn : ch ≠ NEWLINE) :
    procChar s ch = (s.setCur (s.cur.appendN 1 NONPRINT_REPL), false) ∧
    (1 < s.cur.avail →
      (s.cur.appendN 1 NONPRINT_REPL).writes =
        s.cur.writes ++ [(s.cur.off, NONPRINT_REPL)]) ∧
    procChar s 9 = (s.setCur (s.cur.appendN TAB_STOP TAB_REPL), false) ∧
    (TAB_STOP < s.cur.avail →
      (s.cur.appendN TAB_STOP TAB_REPL).writes =
        s.cur.writes ++
          (List.range TAB_STOP).map (fun i => (s.cur.off + i, TAB_REPL))) := by
  have hsep : ch ≠ SEPARATOR := by
    intro hq
    subst hq
    exact absurd hp (by decide)
  refine ⟨?_, ?_, ?_, ?_⟩
  · unfold procChar
    rw [if_neg hsep, if_neg hn, if_pos hp, if_neg ht]
  · intro hav
    rw [CBuf.appendN_writes 1 s.cur NONPRINT_REPL hav,
      show List.range 1 = [0] from rfl]
    simp
  · unfold procChar
    rw [if_neg (by decide), if_neg (by decide), if_pos (by decide), if_pos rfl]
  · intro hav
    exact CBuf.appendN_writes TAB_STOP s.cur TAB_REPL hav

/-- Witness for C5 at the byte 0 (a non-printable, non-tab character). -/
theorem c5_nonprintable_sanitization_witness :
    procChar zeroState 0 =
      (zeroState.setCur (zeroState.cur.appendN 1 NONPRINT_REPL), false) ∧
    (1 < zeroState.cur.avail →
      (zeroState.cur.appendN 1 NONPRINT_REPL).writes =
        zeroState.cur.writes ++ [(zeroState.cur.off, NONPRINT_REPL)]) ∧
    procChar zeroState 9 =
      (zeroState.setCur (zeroState.cur.appendN TAB_STOP TAB_REPL), false) ∧
    (TAB_STOP < zeroState.cur.avail →
      (zeroState.cur.appendN TAB_STOP TAB_REPL).writes =
        zeroState.cur.writes ++
          (List.range TAB_STOP).map (fun i => (zeroState.cur.off + i, TAB_REPL))) :=
  c5_nonprintable_sanitization zeroState 0 (by decide) (by decide) (by decide)

/-- Claim C8 counterexamples: (i) the line "a:-5:b\n" parses with SUCCESS
and stores a match whose line field is -5, which is negative; (ii) the line
"a:4294967295:b\n" has no minus sign in its line-number field, parses with
SUCCESS, and atoi's 32-bit int narrowing still yields a negative line (-1). -/
theorem c8_negative_line_counterexample :
    ((parse_next_match zeroState [97, 58, 45, 53, 58, 98, 10]).2.1 =
        PRes.success ∧
      (extractMatch
        (parse_next_match zeroState [97, 58, 45, 53, 58, 98, 10]).1).line < 0) ∧
    ((parse_next_match zeroState
        [97, 58, 52, 50, 57, 52, 57, 54, 55, 50, 57, 53, 58, 98, 10]).2.1 =
        PRes.success ∧
      45 ∉ cstr (parse_next_match zeroState
        [97, 58, 52, 50, 57, 52, 57, 54, 55, 50, 57, 53, 58, 98, 10]).1.line_num_buf.mem ∧
      (extractMatch (parse_next_match zeroState
        [97, 58, 52, 50, 57, 52, 57, 54, 55, 50, 57, 53, 58, 98, 10]).1).line < 0) :=
  ⟨⟨by decide, by decide⟩, by decide, by decide, by decide⟩

/-- Claim C8 (amended): every match produced by a SUCCESS parse whose
line-number field text contains no minus sign and reads as a value that
fits a 32-bit int (at most 2147483647) has a nonnegative line field.  (A
minus sign makes atoi negative, and a larger digit value wraps through the
long-to-int conversion to a negative int, as the counterexamples show.) -/
theorem c8_line_nonneg (s0 : PState) (input : List Nat) (s : PState)
    (rem : List Nat)
    (_hp : parse_next_match s0 input = (s, PRes.success, rem))
    (hm : 45 ∉ cstr s.line_num_buf.mem)
    (hr : atoi_val (cstr s.line_num_buf.mem) ≤ 2147483647) :
    0 ≤ (extractMatch s).line :=
  atoi_nonneg _ hm hr

/-- Witness for C8 on the successfully parsed line "a:5:b\n". -/
theorem c8_line_nonneg_witness :
    0 ≤ (extractMatch
      (parse_next_match zeroState [97, 58, 53, 58, 98, 10]).1).line :=
  c8_line_nonneg zeroState [97, 58, 53, 58, 98, 10]
    (parse_next_match zeroState [97, 58, 53, 58, 98, 10]).1
    (parse_next_match zeroState [97, 58, 53, 58, 98, 10]).2.2
    (by decide) (by decide) (by decide)

/-- Claim C1 is violated by the code: on the line "a:" followed by 32 digit
characters, ":d" and a newline, the line-number field exactly fills the
32-byte stack buffer line_num_buf, the write pointer ends one past the
buffer, and the terminator store performed on the second structural
separator lands at index 32 — one byte past the declared bound
LINE_NUM_BUF_SIZE.  The write log of that call therefore contains a write
whose index is ≥ the declared capacity. -/
theorem c1_line_num_buf_oob_write :
    ∃ w ∈ (parse_next_match zeroState
        ([97, 58] ++ List.replicate 32 49 ++ [58, 100, 10])).1.line_num_buf.writes,
      LINE_NUM_BUF_SIZE ≤ w.1 :=
  ⟨(32, 0), by decide, by decide⟩

/-- Claim C2 counterexample to its "with no overflow" clause: on the line
"a:" followed by 33 digit characters and a newline, the line-number field
exceeds its 32-byte bound; the field is truncated, but the newline's
terminator store lands at index 32, one byte past the declared bound of
line_num_buf. -/
theorem c2_overflow_counterexample :
    ∃ w ∈ (parse_next_match zeroState
        ([97, 58] ++ List.replicate 33 49 ++ [10])).1.line_num_buf.writes,
      LINE_NUM_BUF_SIZE ≤ w.1 :=
  ⟨(32, 0), by decide, by decide⟩

/-- Claim C3: an input line with fewer than two structural separator
characters before its newline makes `parse_next_match` return MALFORMED
with the rest of the stream unread; the `build_menu` parse loop discards
the record — its match list is exactly that of the remaining input, so the
store count does not increase — and resumes parsing at the next line. -/
theorem c3_malformed_line (L rest : List Nat) (lnJunk : Nat → List Nat)
    (slotJunk : Nat → List Nat × List Nat) (k slot : Nat)
    (fpMem deMem : List Nat)
    (hnl : ∀ c ∈ L, c ≠ NEWLINE) (hsep : countSep L < 2) :
    ∃ s', parse_next_match (initPState fpMem (lnJunk k) deMem)
        (L ++ NEWLINE :: rest) = (s', PRes.malformed, rest) ∧
      build_menu_loop lnJunk slotJunk k slot fpMem deMem (L ++ NEWLINE :: rest) =
        build_menu_loop lnJunk slotJunk (k + 1) slot s'.filepath.mem
          s'.description.mem rest := by
  obtain ⟨s1, he, hst⟩ :=
    runParse_no_newline L (initPState fpMem (lnJunk k) deMem) (NEWLINE :: rest)
      hnl (by show (0 : Nat) ≤ 2; omega)
  rw [runParse_newline] at he
  have hstate : (s1.setCur (s1.cur.store s1.cur.off 0)).state ≠ 2 := by
    rw [setCur_state, hst]
    show min 2 (0 + countSep L) ≠ 2
    omega
  have hp := parse_next_match_some _ _ _ _ he
  rw [if_neg hstate] at hp
  exact ⟨s1.setCur (s1.cur.store s1.cur.off 0), hp,
    build_menu_loop_malformed lnJunk slotJunk k slot fpMem deMem _ _ _ hp⟩

/-- Witness for C3 on the separator-free line "a\n". -/
theorem c3_malformed_line_witness :
    ∃ s', parse_next_match
        (initPState (List.replicate 256 0)
          ((fun _ => List.replicate 32 0) 0) (List.replicate 256 0))
        ([97] ++ NEWLINE :: []) = (s', PRes.malformed, []) ∧
      build_menu_loop (fun _ => List.replicate 32 0)
          (fun _ => (List.replicate 256 0, List.replicate 256 0)) 0 0
          (List.replicate 256 0) (List.replicate 256 0) ([97] ++ NEWLINE :: []) =
        build_menu_loop (fun _ => List.replicate 32 0)
          (fun _ => (List.replicate 256 0, List.replicate 256 0)) 1 0
          s'.filepath.mem s'.description.mem [] :=
  c3_malformed_line [97] [] (fun _ => List.replicate 32 0)
    (fun _ => (List.replicate 256 0, List.replicate 256 0)) 0 0
    (List.replicate 256 0) (List.replicate 256 0) (by decide) (by decide)

/-- Claim C10: an input whose final line contains two structural separators
but is terminated by end of stream rather than a newline drives the state
machine to state 2 (a fully populated record), yet `parse_next_match`
returns EOF rather than SUCCESS, and the `build_menu` loop silently
discards that final record: nothing is added to the match store. -/
theorem c10_eof_discards_final_record (input : List Nat)
    (lnJunk : Nat → List Nat) (slotJunk : Nat → List Nat × List Nat)
    (k slot : Nat) (fpMem deMem : List Nat)
    (hnl : ∀ c ∈ input, c ≠ NEWLINE) (hsep : 2 ≤ countSep input) :
    (parse_next_match (initPState fpMem (lnJunk k) deMem) input).2.1 =
      PRes.eof ∧
    (parse_next_match (initPState fpMem (lnJunk k) deMem) input).1.state = 2 ∧
    build_menu_loop lnJunk slotJunk k slot fpMem deMem input = [] := by
  obtain ⟨s1, he, hst⟩ :=
    runParse_no_newline input (initPState fpMem (lnJunk k) deMem) [] hnl
      (by show (0 : Nat) ≤ 2; omega)
  rw [List.append_nil] at he
  have he' : runParse (initPState fpMem (lnJunk k) deMem) input = (s1, none) := he
  have hs2 : s1.state = 2 := by
    rw [hst]
    show min 2 (0 + countSep input) = 2
    omega
  have hp := parse_next_match_none _ _ _ he'
  exact ⟨by rw [hp], by rw [hp]; exact hs2,
    build_menu_loop_eof lnJunk slotJunk k slot fpMem deMem input s1 [] hp⟩

/-- Witness for C10 on the newline-less final line "a:1:b". -/
theorem c10_eof_discards_final_record_witness :
    (parse_next_match (initPState (List.replicate 256 0)
        ((fun _ => List.replicate 32 0) 0) (List.replicate 256 0))
      [97, 58, 49, 58, 98]).2.1 = PRes.eof ∧
    (parse_next_match (initPState (List.replicate 256 0)
        ((fun _ => List.replicate 32 0) 0) (List.replicate 256 0))
      [97, 58, 49, 58, 98]).1.state = 2 ∧
    build_menu_loop (fun _ => List.replicate 32 0)
      (fun _ => (List.replicate 256 0, List.replicate 256 0)) 0 0
      (List.replicate 256 0) (List.replicate 256 0) [97, 58, 49, 58, 98] = [] :=
  c10_eof_discards_final_record [97, 58, 49, 58, 98]
    (fun _ => List.replicate 32 0)
    (fun _ => (List.replicate 256 0, List.replicate 256 0)) 0 0
    (List.replicate 256 0) (List.replicate 256 0) (by decide) (by decide)

/-- Claim C2 (amended): whichever field of a line exceeds that field's
bound, the field's declared buffer ends up holding exactly the first
(bound - 1) characters of the sanitized field followed by the 0 terminator,
all excess characters dropped — stated and proved for each of the three
fields: filepath (bound MATCH_PATH_LEN), line number (bound
LINE_NUM_BUF_SIZE) and description (bound MATCH_DESCRIPTION_LEN).  (The
original claim's "with no overflow" clause is refuted by
c2_overflow_counterexample: the structural terminator store that follows a
full buffer lands one byte past the bound — the bug of C1.) -/
theorem c2_truncation :
    (∀ (f rest fpMem lnMem deMem : List Nat),
      (∀ c ∈ f, c ≠ SEPARATOR ∧ c ≠ NEWLINE) →
      MATCH_PATH_LEN < f.length →
      fpMem.length = MATCH_PATH_LEN →
      (parse_next_match (initPState fpMem lnMem deMem)
          (f ++ SEPARATOR :: rest)).1.filepath.mem =
        (sanitizeStr f).take (MATCH_PATH_LEN - 1) ++ [0]) ∧
    (∀ (f g rest fpMem lnMem deMem : List Nat),
      (∀ c ∈ f, c ≠ SEPARATOR ∧ c ≠ NEWLINE) →
      (∀ c ∈ g, c ≠ SEPARATOR ∧ c ≠ NEWLINE) →
      LINE_NUM_BUF_SIZE < g.length →
      lnMem.length = LINE_NUM_BUF_SIZE →
      (parse_next_match (initPState fpMem lnMem deMem)
          (f ++ SEPARATOR :: (g ++ SEPARATOR :: rest))).1.line_num_buf.mem =
        (sanitizeStr g).take (LINE_NUM_BUF_SIZE - 1) ++ [0]) ∧
    (∀ (f g d rest fpMem lnMem deMem : List Nat),
      (∀ c ∈ f, c ≠ SEPARATOR ∧ c ≠ NEWLINE) →
      (∀ c ∈ g, c ≠ SEPARATOR ∧ c ≠ NEWLINE) →
      (∀ c ∈ d, c ≠ SEPARATOR ∧ c ≠ NEWLINE) →
      MATCH_DESCRIPTION_LEN < d.length →
      deMem.length = MATCH_DESCRIPTION_LEN →
      (parse_next_match (initPState fpMem lnMem deMem)
          (f ++ SEPARATOR :: (g ++ SEPARATOR ::
            (d ++ NEWLINE :: rest)))).1.description.mem =
        (sanitizeStr d).take (MATCH_DESCRIPTION_LEN - 1) ++ [0]) := by
  refine ⟨?_, ?_, ?_⟩
  · intro f rest fpMem lnMem deMem hf hlen hmem
    rw [parse_next_match_fst,
      runParse_plain f (initPState fpMem lnMem deMem) (SEPARATOR :: rest) hf,
      cur_state0 _ rfl, setCur_state0 _ _ rfl,
      runParse_sep0 _ _ rfl,
      runParse_filepath_frozen rest _ (by show (1 : Nat) ≠ 0; omega)]
    show ((CBuf.appendChars ⟨MATCH_PATH_LEN, 0, MATCH_PATH_LEN, fpMem, []⟩
        (sanitizeStr f)).store
        (CBuf.appendChars ⟨MATCH_PATH_LEN, 0, MATCH_PATH_LEN, fpMem, []⟩
          (sanitizeStr f)).off 0).mem = _
    have hslen := sanitizeStr_length f
    exact fresh_buf_overflow MATCH_PATH_LEN fpMem (sanitizeStr f) []
      hmem (by decide) (by omega)
  · intro f g rest fpMem lnMem deMem hf hg hlen hmem
    rw [parse_next_match_fst,
      runParse_plain f (initPState fpMem lnMem deMem)
        (SEPARATOR :: (g ++ SEPARATOR :: rest)) hf,
      cur_state0 _ rfl, setCur_state0 _ _ rfl,
      runParse_sep0 _ _ rfl,
      runParse_plain g _ (SEPARATOR :: rest) hg,
      cur_state1 _ rfl, setCur_state1 _ _ rfl,
      runParse_sep1 _ _ rfl,
      runParse_line_num_frozen rest _ (by show 2 ≤ (2 : Nat); omega)]
    show ((CBuf.appendChars
        ⟨LINE_NUM_BUF_SIZE, 0, LINE_NUM_BUF_SIZE, lnMem.set 0 0, [(0, 0)]⟩
        (sanitizeStr g)).store
        (CBuf.appendChars
          ⟨LINE_NUM_BUF_SIZE, 0, LINE_NUM_BUF_SIZE, lnMem.set 0 0, [(0, 0)]⟩
          (sanitizeStr g)).off 0).mem = _
    have hslen := sanitizeStr_length g
    exact fresh_buf_overflow LINE_NUM_BUF_SIZE (lnMem.set 0 0) (sanitizeStr g)
      [(0, 0)] (by rw [List.length_set]; exact hmem) (by decide) (by omega)
  · intro f g d rest fpMem lnMem deMem hf hg hd hlen hmem
    rw [parse_next_match_fst,
      runParse_plain f (initPState fpMem lnMem deMem)
        (SEPARATOR :: (g ++ SEPARATOR :: (d ++ NEWLINE :: rest))) hf,
      cur_state0 _ rfl, setCur_state0 _ _ rfl,
      runParse_sep0 _ _ rfl,
      runParse_plain g _ (SEPARATOR :: (d ++ NEWLINE :: rest)) hg,
      cur_state1 _ rfl, setCur_state1 _ _ rfl,
      runParse_sep1 _ _ rfl,
      runParse_plain d _ (NEWLINE :: rest) hd,
      cur_state2 _ (by show 2 ≤ (2 : Nat); omega),
      setCur_state2 _ _ (by show 2 ≤ (2 : Nat); omega),
      runParse_newline,
      cur_state2 _ (by show 2 ≤ (2 : Nat); omega),
      setCur_state2 _ _ (by show 2 ≤ (2 : Nat); omega)]
    show ((CBuf.appendChars
        ⟨MATCH_DESCRIPTION_LEN, 0, MATCH_DESCRIPTION_LEN, deMem.set 0 0,
          [(0, 0)]⟩ (sanitizeStr d)).store
        (CBuf.appendChars
          ⟨MATCH_DESCRIPTION_LEN, 0, MATCH_DESCRIPTION_LEN, deMem.set 0 0,
            [(0, 0)]⟩ (sanitizeStr d)).off 0).mem = _
    have hslen := sanitizeStr_length d
    exact fresh_buf_overflow MATCH_DESCRIPTION_LEN (deMem.set 0 0)
      (sanitizeStr d) [(0, 0)] (by rw [List.length_set]; exact hmem)
      (by decide) (by omega)

/-- Witness for C2: each field over its bound in turn — a 257-character
filepath, a 33-digit line number, a 257-character description. -/
theorem c2_truncation_witness :
    (parse_next_match
        (initPState (List.replicate 256 0) (List.replicate 32 0)
          (List.replicate 256 0))
        (List.replicate 257 97 ++ SEPARATOR :: [49, 58, 100, 10])).1.filepath.mem =
      (sanitizeStr (List.replicate 257 97)).take (MATCH_PATH_LEN - 1) ++ [0] ∧
    (parse_next_match
        (initPState (List.replicate 256 0) (List.replicate 32 0)
          (List.replicate 256 0))
        ([97] ++ SEPARATOR ::
          (List.replicate 33 49 ++ SEPARATOR :: [100, 10]))).1.line_num_buf.mem =
      (sanitizeStr (List.replicate 33 49)).take (LINE_NUM_BUF_SIZE - 1) ++ [0] ∧
    (parse_next_match
        (initPState (List.replicate 256 0) (List.replicate 32 0)
          (List.replicate 256 0))
        ([97] ++ SEPARATOR :: ([49] ++ SEPARATOR ::
          (List.replicate 257 98 ++ NEWLINE :: [])))).1.description.mem =
      (sanitizeStr (List.replicate 257 98)).take (MATCH_DESCRIPTION_LEN - 1) ++ [0] :=
  ⟨c2_truncation.1 (List.replicate 257 97) [49, 58, 100, 10]
    (List.replicate 256 0) (List.replicate 32 0) (List.replicate 256 0)
    (by decide) (by decide) (by decide),
   c2_truncation.2.1 [97] (List.replicate 33 49) [100, 10]
    (List.replicate 256 0) (List.replicate 32 0) (List.replicate 256 0)
    (by decide) (by decide) (by decide) (by decide),
   c2_truncation.2.2 [97] [49] (List.replicate 257 98) []
    (List.replicate 256 0) (List.replicate 32 0) (List.replicate 256 0)
    (by decide) (by decide) (by decide) (by decide) (by decide)⟩

/-- Claim C6: round trip.  A record whose filepath and description are
shorter than their bounds and consist of printable non-separator
characters, and whose line number is a C int rendered in decimal digits,
serialized as filepath SEP digits SEP description newline, parses back with
SUCCESS to exactly the original filepath, line number and description,
leaving the rest of the stream unread. -/
theorem c6_roundtrip (f d : List Nat) (n : Nat) (rest : List Nat)
    (fpMem lnMem deMem : List Nat)
    (hf : ∀ c ∈ f, isprint c = true ∧ c ≠ SEPARATOR)
    (hd : ∀ c ∈ d, isprint c = true ∧ c ≠ SEPARATOR)
    (hlf : f.length < MATCH_PATH_LEN)
    (hld : d.length < MATCH_DESCRIPTION_LEN)
    (hn : n ≤ 2147483647)
    (hfpm : fpMem.length = MATCH_PATH_LEN)
    (hlnm : lnMem.length = LINE_NUM_BUF_SIZE)
    (hdem : deMem.length = MATCH_DESCRIPTION_LEN) :
    (parse_next_match (initPState fpMem lnMem deMem)
        (f ++ SEPARATOR :: (natDigits n ++ SEPARATOR :: (d ++ NEWLINE :: rest)))).2.1
      = PRes.success ∧
    (parse_next_match (initPState fpMem lnMem deMem)
        (f ++ SEPARATOR :: (natDigits n ++ SEPARATOR :: (d ++ NEWLINE :: rest)))).2.2
      = rest ∧
    extractMatch (parse_next_match (initPState fpMem lnMem deMem)
        (f ++ SEPARATOR :: (natDigits n ++ SEPARATOR :: (d ++ NEWLINE :: rest)))).1
      = ⟨f, (n : Int), d⟩ := by
  have hf' : ∀ c ∈ f, c ≠ SEPARATOR ∧ c ≠ NEWLINE := by
    intro c hc
    refine ⟨(hf c hc).2, ?_⟩
    intro hq
    subst hq
    exact absurd (hf NEWLINE hc).1 (by decide)
  have hd' : ∀ c ∈ d, c ≠ SEPARATOR ∧ c ≠ NEWLINE := by
    intro c hc
    refine ⟨(hd c hc).2, ?_⟩
    intro hq
    subst hq
    exact absurd (hd NEWLINE hc).1 (by decide)
  have hdig : ∀ c ∈ natDigits n, c ≠ SEPARATOR ∧ c ≠ NEWLINE := by
    intro c hc
    have := natDigits_digits n c hc
    show c ≠ 58 ∧ c ≠ 10
    omega
  have hsan_f : sanitizeStr f = f :=
    sanitizeStr_printable f (fun c hc => (hf c hc).1)
  have hsan_d : sanitizeStr d = d :=
    sanitizeStr_printable d (fun c hc => (hd c hc).1)
  have hsan_g : sanitizeStr (natDigits n) = natDigits n := by
    refine sanitizeStr_printable _ (fun c hc => ?_)
    have := natDigits_digits n c hc
    show (32 ≤ c && c ≤ 126) = true
    simp
    omega
  have hf0 : 0 ∉ f := by
    intro h0
    exact absurd (hf 0 h0).1 (by decide)
  have hd0 : 0 ∉ d := by
    intro h0
    exact absurd (hd 0 h0).1 (by decide)
  have hg0 : 0 ∉ natDigits n := by
    intro h0
    have := natDigits_digits n 0 h0
    omega
  have hdlen : (natDigits n).length ≤ 10 := by
    refine natDigits_length_le 10 n (by omega) ?_
    have hpw : (10 : Nat) ^ 10 = 10000000000 := by norm_num
    omega
  have hrun : runParse (initPState fpMem lnMem deMem)
      (f ++ SEPARATOR :: (natDigits n ++ SEPARATOR :: (d ++ NEWLINE :: rest))) =
      runParse (initPState fpMem lnMem deMem)
      (f ++ SEPARATOR :: (natDigits n ++ SEPARATOR :: (d ++ NEWLINE :: rest))) :=
    rfl
  conv at hrun =>
    rhs
    rw [runParse_plain f _ _ hf', hsan_f, cur_state0 _ rfl, setCur_state0 _ _ rfl,
      runParse_sep0 _ _ rfl,
      runParse_plain (natDigits n) _ _ hdig, hsan_g,
      cur_state1 _ rfl, setCur_state1 _ _ rfl,
      runParse_sep1 _ _ rfl,
      runParse_plain d _ _ hd', hsan_d,
      cur_state2 _ (by show (2 : Nat) ≤ 2; omega),
      setCur_state2 _ _ (by show (2 : Nat) ≤ 2; omega),
      runParse_newline,
      cur_state2 _ (by show (2 : Nat) ≤ 2; omega),
      setCur_state2 _ _ (by show (2 : Nat) ≤ 2; omega)]
  have hp := parse_next_match_some _ _ _ _ hrun
  refine ⟨?_, ?_, ?_⟩
  · rw [hp]
    rfl
  · rw [hp]
  · rw [hp]
    show (⟨cstr ((CBuf.appendChars
          ⟨MATCH_PATH_LEN, 0, MATCH_PATH_LEN, fpMem, []⟩ f).store
          (CBuf.appendChars
            ⟨MATCH_PATH_LEN, 0, MATCH_PATH_LEN, fpMem, []⟩ f).off 0).mem,
        atoi (cstr ((CBuf.appendChars
          ⟨LINE_NUM_BUF_SIZE, 0, LINE_NUM_BUF_SIZE, lnMem.set 0 0, [(0, 0)]⟩
          (natDigits n)).store
          (CBuf.appendChars
            ⟨LINE_NUM_BUF_SIZE, 0, LINE_NUM_BUF_SIZE, lnMem.set 0 0, [(0, 0)]⟩
            (natDigits n)).off 0).mem),
        cstr ((CBuf.appendChars
          ⟨MATCH_DESCRIPTION_LEN, 0, MATCH_DESCRIPTION_LEN, deMem.set 0 0,
            [(0, 0)]⟩ d).store
          (CBuf.appendChars
            ⟨MATCH_DESCRIPTION_LEN, 0, MATCH_DESCRIPTION_LEN, deMem.set 0 0,
              [(0, 0)]⟩ d).off 0).mem⟩ : MatchRec) = ⟨f, (n : Int), d⟩
    rw [fresh_buf_fits_cstr MATCH_PATH_LEN fpMem f [] hfpm hlf hf0,
      fresh_buf_fits_cstr LINE_NUM_BUF_SIZE (lnMem.set 0 0) (natDigits n)
        [(0, 0)] (by rw [List.length_set]; exact hlnm)
        (by show (natDigits n).length < 32; omega) hg0,
      fresh_buf_fits_cstr MATCH_DESCRIPTION_LEN (deMem.set 0 0) d
        [(0, 0)] (by rw [List.length_set]; exact hdem) hld hd0,
      atoi_natDigits n hn]

/-- Witness for C6: the record {filepath "/a", line 10, description "hi"}
serialized as "/a:10:hi\n" parses back exactly. -/
theorem c6_roundtrip_witness :
    (parse_next_match (initPState (List.replicate 256 0) (List.replicate 32 0)
        (List.replicate 256 0))
        ([47, 97] ++ SEPARATOR ::
          (natDigits 10 ++ SEPARATOR :: ([104, 105] ++ NEWLINE :: [])))).2.1
      = PRes.success ∧
    (parse_next_match (initPState (List.replicate 256 0) (List.replicate 32 0)
        (List.replicate 256 0))
        ([47, 97] ++ SEPARATOR ::
          (natDigits 10 ++ SEPARATOR :: ([104, 105] ++ NEWLINE :: [])))).2.2
      = [] ∧
    extractMatch (parse_next_match (initPState (List.replicate 256 0)
        (List.replicate 32 0) (List.replicate 256 0))
        ([47, 97] ++ SEPARATOR ::
          (natDigits 10 ++ SEPARATOR :: ([104, 105] ++ NEWLINE :: [])))).1
      = ⟨[47, 97], (10 : Int), [104, 105]⟩ :=
  c6_roundtrip [47, 97] [104, 105] 10 [] (List.replicate 256 0)
    (List.replicate 32 0) (List.replicate 256 0)
    (by decide) (by decide) (by decide) (by decide) (by decide)
    (by decide) (by decide) (by decide)
